import Mathlib

/-!
Verification development for the earnings-extractor service.

The definitions below are shallow embeddings of the TypeScript sources:
the extraction record and fallback decision (`src/lib/llm-extractor.ts`,
final revision), the retry wrapper `withRetry`, the tiered strategy
`extractFromPDF`, the JSON response parser, the validator
(`src/lib/validator.ts`), the sliding-window rate limiter
(`src/lib/rate-limit.ts`), the batch coordinator
(`src/lib/concurrency.ts`) modelled as an explicit interleaving machine,
and the `Semaphore` class modelled at the granularity of its synchronous
segments between `await` points.
-/

namespace Earnings

/-- The extraction record (`ExtractedData`): every field is a present
string or `null`/absent.  `none` models `null`/`undefined`. -/
structure ExtractedData where
  company_name : Option String
  quarter : Option String
  total_revenue : Option String
  earnings_per_share : Option String
  net_income : Option String
  operating_income : Option String
  gross_margin : Option String
  operating_expenses : Option String
  buybacks_and_dividends : Option String
deriving Repr, DecidableEq

/-- JavaScript falsiness of a `string | null | undefined` value:
`!x` is true for `null`, `undefined` and the empty string. -/
def isBlank : Option String → Bool
  | none => true
  | some s => s.isEmpty

/-- The `FINANCIAL_FIELDS` of a record, in source order. -/
def financialFields (d : ExtractedData) : List (Option String) :=
  [d.total_revenue, d.earnings_per_share, d.net_income, d.operating_income,
   d.gross_margin, d.operating_expenses, d.buybacks_and_dividends]

/-- `needsFallback` from the extractor: escalate when the company name is
falsy, or when fewer than 2 of the 7 financial fields are non-null. -/
def needsFallback (d : ExtractedData) : Bool :=
  if isBlank d.company_name then true
  else decide ((financialFields d).countP (fun f => f.isSome) < 2)

/-- JavaScript `String.prototype.trim()` on a character list: drop
whitespace from both ends. -/
def jsTrimChars (cs : List Char) : List Char :=
  ((cs.dropWhile Char.isWhitespace).reverse.dropWhile Char.isWhitespace).reverse

/-- JavaScript `s.trim()`. -/
def jsTrim (s : String) : String := String.mk (jsTrimChars s.data)

/-- A JavaScript error value as seen by the retry wrapper: either an
`Anthropic.APIError` carrying an HTTP status, or any other thrown value. -/
inductive JsErr
  | api (status : Nat) (msg : String)
  | other (msg : String)
deriving Repr, DecidableEq

/-- `isRateLimit`: an `APIError` with status 429. -/
def isRateLimit : JsErr → Bool
  | .api 429 _ => true
  | _ => false

/-- `throwAPIError`: maps an error to the `Error` actually thrown
(classifying 401 and 400, wrapping other API statuses, rethrowing
non-API errors unchanged). -/
def throwAPIError : JsErr → JsErr
  | .api 401 _ =>
      .other "Invalid Anthropic API key. Check your ANTHROPIC_API_KEY environment variable."
  | .api 400 m => .other ("Claude API request error: " ++ m)
  | .api s m => .other ("Claude API error (" ++ toString s ++ "): " ++ m)
  | .other m => .other m

/-- Loop body of `withRetry`.  The collaborator `fn` is indexed by the
number of calls already made (each attempt is a fresh call); `remaining`
counts loop iterations left out of `maxAttempts`, and the attempt number
of the next call is `made + 1`.  Returns the result together with the
total number of calls issued. -/
def withRetryGo (fn : Nat → Except JsErr α) (maxAttempts : Nat) :
    Nat → Nat → Except JsErr α × Nat
  | 0, made => (.error (.other "Max retries exceeded"), made)
  | remaining + 1, made =>
    match fn made with
    | .ok v => (.ok v, made + 1)
    | .error e =>
      if isRateLimit e && decide (made + 1 < maxAttempts) then
        withRetryGo fn maxAttempts remaining (made + 1)
      else
        (.error (throwAPIError e), made + 1)

/-- `withRetry(fn, maxAttempts)`: run the loop from attempt 1. -/
def withRetry (fn : Nat → Except JsErr α) (maxAttempts : Nat) :
    Except JsErr α × Nat :=
  withRetryGo fn maxAttempts maxAttempts 0

/-- `RETRY_MAX_ATTEMPTS` from the source. -/
def RETRY_MAX_ATTEMPTS : Nat := 4

/-- The two oracle tiers. -/
inductive Tier
  | cheap
  | vision
deriving Repr, DecidableEq

/-- `extractFromPDF`, abstracted over its collaborators: `textResult` is
the outcome of `extractTextFromPDF`, `cheapFn` the outcome of
`extractFromText` on the extracted text, `visionFn` the outcome of
`extractFromFullPDF`.  Returns the overall outcome together with the
list of tiers invoked, in order. -/
def extractFromPDF (textResult : Except String String)
    (cheapFn : String → Except JsErr ExtractedData)
    (visionFn : Except JsErr ExtractedData) :
    Except JsErr ExtractedData × List Tier :=
  match textResult with
  | .error _ => (visionFn, [Tier.vision])
  | .ok text =>
    if (jsTrim text).length < 100 then
      (visionFn, [Tier.vision])
    else
      match cheapFn text with
      | .error e => (.error e, [Tier.cheap])
      | .ok r =>
        if needsFallback r then (visionFn, [Tier.cheap, Tier.vision])
        else (.ok r, [Tier.cheap])

/-- Split off a maximal run of decimal digits. -/
def takeDigits : List Char → List Char × List Char
  | [] => ([], [])
  | c :: cs =>
    if c.isDigit then
      match takeDigits cs with
      | (ds, rest) => (c :: ds, rest)
    else ([], c :: cs)

/-- Decimal digits to a natural number. -/
def digitsToNat (ds : List Char) : Nat :=
  ds.foldl (fun acc c => acc * 10 + (c.toNat - '0'.toNat)) 0

/-- `10 ^ n` by structural recursion (kernel-reducible). -/
def pow10 : Nat → Nat
  | 0 => 1
  | n + 1 => 10 * pow10 n

/-- An exact decimal number `m / 10 ^ s`, the value space of every number
the service parses or compares (JSON numbers without exponents, dollar
amounts, percentages).  Deliberately unnormalized; comparisons
cross-multiply. -/
structure Dec where
  m : Int
  s : Nat
deriving Repr, DecidableEq

/-- Strict order on decimals by cross-multiplication. -/
def Dec.blt (a b : Dec) : Bool :=
  decide (a.m * (pow10 b.s : Int) < b.m * (pow10 a.s : Int))

/-- Absolute value of a decimal. -/
def Dec.dabs (a : Dec) : Dec := ⟨(a.m.natAbs : Int), a.s⟩

/-- Negation of a decimal. -/
def Dec.dneg (a : Dec) : Dec := ⟨-a.m, a.s⟩

/-- Multiplication by `10 ^ k` (the magnitude suffixes). -/
def Dec.mulPow10 (a : Dec) (k : Nat) : Dec := ⟨a.m * (pow10 k : Int), a.s⟩

/-- Division by `10 ^ k` (percent normalization). -/
def Dec.divPow10 (a : Dec) (k : Nat) : Dec := ⟨a.m, a.s + k⟩

/-- Build the decimal `ds.fs` from integer digits and fraction digits. -/
def Dec.ofDigits (ds fs : List Char) : Dec :=
  ⟨(digitsToNat ds * pow10 fs.length + digitsToNat fs : Nat), fs.length⟩

/-- A JSON value of the fragment the oracle reply uses: `null`, booleans,
decimal numbers (no exponents), strings without escape sequences, and
objects.  `JSON.parse` is modelled on this fragment. -/
inductive JVal
  | jnull
  | jbool (b : Bool)
  | jnum (q : Dec)
  | jstr (s : String)
  | jobj (fields : List (String × JVal))

/-- JSON whitespace. -/
def isJsonWs (c : Char) : Bool := c = ' ' || c = '\t' || c = '\n' || c = '\r'

/-- Drop leading JSON whitespace. -/
def skipJsonWs : List Char → List Char
  | [] => []
  | c :: cs => if isJsonWs c then skipJsonWs cs else c :: cs

/-- Parse the body of a JSON string literal (opening quote already
consumed); escape sequences are outside the modelled fragment. -/
def parseStringLit : List Char → Option (String × List Char)
  | [] => none
  | c :: cs =>
    if c = '"' then some ("", cs)
    else if c = '\\' then none
    else
      match parseStringLit cs with
      | some (s, rest) => some (String.mk (c :: s.data), rest)
      | none => none

/-- Parse a JSON number `-?digits(.digits)?` as an exact decimal. -/
def parseNumberChars (cs : List Char) : Option (Dec × List Char) :=
  let signSplit : Bool × List Char :=
    match cs with
    | '-' :: r => (true, r)
    | _ => (false, cs)
  let neg := signSplit.1
  let ds := (takeDigits signSplit.2).1
  let rest := (takeDigits signSplit.2).2
  if ds.isEmpty then none
  else
    match rest with
    | '.' :: r₂ =>
      let fs := (takeDigits r₂).1
      let rest₂ := (takeDigits r₂).2
      if fs.isEmpty then none
      else
        let v := Dec.ofDigits ds fs
        some (if neg then v.dneg else v, rest₂)
    | _ =>
      let v := Dec.ofDigits ds []
      some (if neg then v.dneg else v, rest)

mutual

/-- Parse one JSON value (fuel-bounded recursive descent). -/
def parseVal : Nat → List Char → Option (JVal × List Char)
  | 0, _ => none
  | fuel + 1, cs =>
    match skipJsonWs cs with
    | [] => none
    | '"' :: rest =>
      match parseStringLit rest with
      | some (s, r) => some (.jstr s, r)
      | none => none
    | '{' :: rest =>
      match skipJsonWs rest with
      | '}' :: r => some (.jobj [], r)
      | r => match parseEntries fuel r with
             | some (es, r₂) => some (.jobj es, r₂)
             | none => none
    | 'n' :: 'u' :: 'l' :: 'l' :: rest => some (.jnull, rest)
    | 't' :: 'r' :: 'u' :: 'e' :: rest => some (.jbool true, rest)
    | 'f' :: 'a' :: 'l' :: 's' :: 'e' :: rest => some (.jbool false, rest)
    | other =>
      match parseNumberChars other with
      | some (q, r) => some (.jnum q, r)
      | none => none

/-- Parse the entries of a JSON object after its opening brace, up to and
including the closing brace. -/
def parseEntries : Nat → List Char → Option (List (String × JVal) × List Char)
  | 0, _ => none
  | fuel + 1, cs =>
    match skipJsonWs cs with
    | '"' :: rest =>
      match parseStringLit rest with
      | none => none
      | some (key, r₁) =>
        match skipJsonWs r₁ with
        | ':' :: r₂ =>
          match parseVal fuel r₂ with
          | none => none
          | some (v, r₃) =>
            match skipJsonWs r₃ with
            | ',' :: r₄ =>
              match parseEntries fuel r₄ with
              | none => none
              | some (es, r₅) => some ((key, v) :: es, r₅)
            | '}' :: r₄ => some ([(key, v)], r₄)
            | _ => none
        | _ => none
    | _ => none

end

/-- `JSON.parse` on the modelled fragment: a single value with only
whitespace around it. -/
def jsonParse (s : String) : Option JVal :=
  match parseVal (s.length + 1) s.data with
  | some (v, rest) => if (skipJsonWs rest).isEmpty then some v else none
  | none => none

/-- Drop characters up to (and keeping) the first opening brace. -/
def dropUntilOpen : List Char → Option (List Char)
  | [] => none
  | c :: cs => if c = '{' then some (c :: cs) else dropUntilOpen cs

/-- Drop characters up to (and keeping) the first closing brace; applied
to a reversed list this finds the last closing brace. -/
def dropUntilCloseRev : List Char → Option (List Char)
  | [] => none
  | c :: cs => if c = '}' then some (c :: cs) else dropUntilCloseRev cs

/-- The substring matched by the greedy regex `\x7b[\s\S]*\x7d`: from the
first opening brace through the last closing brace, when the latter comes
after the former. -/
def greedyBraceMatch (s : String) : Option String :=
  match dropUntilOpen s.data with
  | none => none
  | some suf =>
    match dropUntilCloseRev suf.reverse with
    | none => none
    | some revSub => some (String.mk revSub.reverse)

/-- A content block of an oracle reply. -/
inductive ContentBlock
  | text (s : String)
  | nontext
deriving Repr, DecidableEq

/-- `content.find(block => block.type === "text")`. -/
def firstTextBlock : List ContentBlock → Option String
  | [] => none
  | .text s :: _ => some s
  | .nontext :: rest => firstTextBlock rest

/-- `parseResponse`: strict parse of the text block, then the greedy
brace-delimited substring, otherwise a terminal parse failure. -/
def parseResponse (content : List ContentBlock) : Except String JVal :=
  match firstTextBlock content with
  | none => .error "No text response from Claude"
  | some t =>
    match jsonParse t with
    | some v => .ok v
    | none =>
      match greedyBraceMatch t with
      | some sub =>
        match jsonParse sub with
        | some v => .ok v
        | none => .error "Failed to parse extraction response as JSON"
      | none => .error "Failed to parse extraction response as JSON"

/-- Scan for the matching close brace of the first open brace, keeping
the scanned prefix. -/
def balancedFrom (depth : Nat) (acc : List Char) : List Char → Option (List Char)
  | [] => none
  | c :: cs =>
    if c = '{' then balancedFrom (depth + 1) (c :: acc) cs
    else if c = '}' then
      if depth = 1 then some (c :: acc).reverse
      else balancedFrom (depth - 1) (c :: acc) cs
    else balancedFrom depth (c :: acc) cs

/-- Modelled from the spec: the first balanced structured-object substring
within surrounding text ("first balanced brace-delimited substring"),
which the spec says the fallback parse step uses; stated here only to
compare against the implemented greedy match. -/
def firstBalancedObject (s : String) : Option String :=
  match dropUntilOpen s.data with
  | none => none
  | some suf =>
    match balancedFrom 0 [] suf with
    | some sub => some (String.mk sub)
    | none => none

/-- JavaScript `parseFloat` on the no-exponent fragment: skip leading
whitespace, optional sign, then the longest prefix `digits(.digits)?`
(possibly starting with the dot); trailing junk is ignored; `none`
models `NaN`. -/
def parseFloatChars (cs : List Char) : Option Dec :=
  let cs₁ := cs.dropWhile Char.isWhitespace
  let signSplit : Bool × List Char :=
    match cs₁ with
    | '-' :: r => (true, r)
    | '+' :: r => (false, r)
    | _ => (false, cs₁)
  let neg := signSplit.1
  let ds := (takeDigits signSplit.2).1
  let rest := (takeDigits signSplit.2).2
  match rest with
  | '.' :: r₂ =>
    let fs := (takeDigits r₂).1
    if ds.isEmpty && fs.isEmpty then none
    else
      let v := Dec.ofDigits ds fs
      some (if neg then v.dneg else v)
  | _ =>
    if ds.isEmpty then none
    else
      let v := Dec.ofDigits ds []
      some (if neg then v.dneg else v)

/-- `parseFloat` on a string. -/
def jsParseFloat (s : String) : Option Dec := parseFloatChars s.data

/-- `value.replace(/[$,\s]/g, "")` as used on the EPS field. -/
def jsStripMoney (s : String) : String :=
  String.mk (s.data.filter (fun c => !((c == '$') || (c == ',') || c.isWhitespace)))

/-- `value.replace(/[,$]/g, "")`. -/
def stripDollarCommas (s : String) : String :=
  String.mk (s.data.filter (fun c => !((c == ',') || (c == '$'))))

/-- The cleaned financial string: strip `$` and commas, trim, lowercase. -/
def cleanedFin (s : String) : List Char :=
  (jsTrimChars (stripDollarCommas s).data).map Char.toLower

/-- Match the anchored group `-?\\d+\\.?\\d*` at the head of the cleaned
string, returning its exact decimal value and the rest. -/
def finNumPrefix (cs : List Char) : Option (Dec × List Char) :=
  let signSplit : Bool × List Char :=
    match cs with
    | '-' :: r => (true, r)
    | _ => (false, cs)
  let neg := signSplit.1
  let ds := (takeDigits signSplit.2).1
  let rest := (takeDigits signSplit.2).2
  if ds.isEmpty then none
  else
    match rest with
    | '.' :: r₂ =>
      let fs := (takeDigits r₂).1
      let rest₂ := (takeDigits r₂).2
      let v := Dec.ofDigits ds fs
      some (if neg then v.dneg else v, rest₂)
    | _ =>
      let v := Dec.ofDigits ds []
      some (if neg then v.dneg else v, rest)

/-- The optional multiplier suffix `\\s*(trillion|billion|million|t|b|m)?$`,
returned as a power-of-ten exponent. -/
def finSuffixMult (cs : List Char) : Option Nat :=
  let r := cs.dropWhile Char.isWhitespace
  if r.isEmpty then some 0
  else if r = "trillion".data then some 12
  else if r = "billion".data then some 9
  else if r = "million".data then some 6
  else if r = ['t'] then some 12
  else if r = ['b'] then some 9
  else if r = ['m'] then some 6
  else none

/-- `parseFinancialString` from the validator: `null`/empty gives `null`;
otherwise clean the string, match number and optional magnitude suffix,
and scale. -/
def parseFinancialString (v : Option String) : Option Dec :=
  match v with
  | none => none
  | some s =>
    if s.isEmpty then none
    else
      match finNumPrefix (cleanedFin s) with
      | none => none
      | some (n, rest) =>
        match finSuffixMult rest with
        | none => none
        | some k => some (n.mulPow10 k)

/-- The validator's gross-margin normalization: trim, strip a trailing
percent sign and divide by 100, else parse directly; `none` models NaN. -/
def normalizeGrossMargin (g : String) : Option Dec :=
  let tc := jsTrimChars g.data
  match tc.getLast? with
  | some '%' => (parseFloatChars tc.dropLast).map (fun x => x.divPow10 2)
  | _ => parseFloatChars tc

/-- The outcome of `validateExtraction`. -/
structure ValidationResult where
  valid : Bool
  warnings : List String
  errors : List String
deriving Repr, DecidableEq

/-- The error list: required company name and quarter. -/
def valErrors (d : ExtractedData) : List String :=
  (if isBlank d.company_name then ["Missing company name"] else []) ++
  (if isBlank d.quarter then ["Missing quarter"] else [])

/-- Gross-margin range warning. -/
def gmWarnings (d : ExtractedData) : List String :=
  match d.gross_margin with
  | none => []
  | some g =>
    if g.isEmpty then []
    else
      match normalizeGrossMargin g with
      | some x =>
        if x.blt ⟨0, 0⟩ || Dec.blt ⟨1, 0⟩ x then
          ["Gross margin " ++ g ++ " outside expected range 0-100%"]
        else []
      | none => []

/-- EPS magnitude warning. -/
def epsWarnings (d : ExtractedData) : List String :=
  match d.earnings_per_share with
  | none => []
  | some raw =>
    if raw.isEmpty then []
    else
      match jsParseFloat (jsStripMoney raw) with
      | some x =>
        if Dec.blt ⟨100, 0⟩ x.dabs then ["EPS of " ++ raw ++ " seems unusually high"]
        else []
      | none => []

/-- Negative revenue warning. -/
def revenueWarnings (d : ExtractedData) : List String :=
  match parseFinancialString d.total_revenue with
  | some r => if r.blt ⟨0, 0⟩ then ["Total revenue is negative"] else []
  | none => []

/-- Net income exceeding revenue warning. -/
def netIncomeWarnings (d : ExtractedData) : List String :=
  match parseFinancialString d.total_revenue, parseFinancialString d.net_income with
  | some r, some ni => if r.blt ni then ["Net income exceeds total revenue"] else []
  | _, _ => []

/-- No-extracted-data warning. -/
def noDataWarnings (d : ExtractedData) : List String :=
  if (financialFields d).countP (fun f => f.isSome) = 0 then
    ["No financial data was extracted"]
  else []

/-- `validateExtraction`: errors, warnings in source order, and a `valid`
flag true exactly when there are no errors. -/
def validateExtraction (d : ExtractedData) : ValidationResult :=
  ⟨decide ((valErrors d).length = 0),
   gmWarnings d ++ epsWarnings d ++ revenueWarnings d ++
     netIncomeWarnings d ++ noDataWarnings d,
   valErrors d⟩

/-- `RATE_LIMIT_WINDOW_MS` default: one hour. -/
def WINDOW_MS_DEFAULT : Nat := 3600000

/-- `RATE_LIMIT_MAX` default: 20 requests. -/
def MAX_REQUESTS_DEFAULT : Nat := 20

/-- The result record of `checkRateLimit`. -/
structure RateLimitResult where
  allowed : Bool
  remaining : Nat
  retryAfterMs : Option Nat
deriving Repr, DecidableEq

/-- Remove timestamps outside the sliding window: keep `t` with
`now - t < window` (Nat subtraction; timestamps are not in the future
under a monotone clock). -/
def pruneWindow (window now : Nat) (ts : List Nat) : List Nat :=
  ts.filter (fun t => now - t < window)

/-- One `checkRateLimit(ip)` call on the per-key timestamp list at time
`now`: prune, then either deny (reporting a retry-after computed from the
oldest recorded timestamp, and storing only the pruned list) or allow
(appending `now`).  The denied branch reads `timestamps[0]`, which exists
whenever `maxReq ≥ 1`; `headD` supplies the unreachable-empty default. -/
def checkRateLimit (window maxReq : Nat) (ts : List Nat) (now : Nat) :
    RateLimitResult × List Nat :=
  let pruned := pruneWindow window now ts
  if maxReq ≤ pruned.length then
    (⟨false, 0, some (window - (now - pruned.headD 0))⟩, pruned)
  else
    (⟨true, maxReq - (pruned.length + 1), none⟩, pruned ++ [now])

/-- Run a sequence of checks for one key, collecting the results and the
final stored timestamp list. -/
def rlRun (window maxReq : Nat) (ts : List Nat) :
    List Nat → List RateLimitResult × List Nat
  | [] => ([], ts)
  | now :: rest =>
    let step := checkRateLimit window maxReq ts now
    let next := rlRun window maxReq step.2 rest
    (step.1 :: next.1, next.2)

/-- Modelled from the spec: a check is allowed iff fewer than the maximum
number of previously **allowed** requests fall within the last window;
`acc` carries the times of previously allowed requests. -/
def specAllowed (window maxReq : Nat) (acc : List Nat) : List Nat → List Bool
  | [] => []
  | now :: rest =>
    let ok := decide ((acc.filter (fun t => now - t < window)).length < maxReq)
    ok :: specAllowed window maxReq (if ok then acc ++ [now] else acc) rest

/-- A `processBatch` worker between suspension points: idle (about to
claim the shared index), busy on a claimed document, failed (its awaited
extraction rejected, ending its loop), or finished (saw no work left). -/
inductive WorkerState (ε : Type)
  | idle
  | busy (idx : Nat)
  | failed (idx : Nat) (e : ε)
  | finished
deriving Repr, DecidableEq

/-- The shared state of `processBatch`: the work index `nextIndex`, the
pre-allocated results array, the workers, and the first rejection (the
value `Promise.all` rejects with). -/
structure BatchState (ε ρ : Type) where
  nextIndex : Nat
  results : List (Option ρ)
  workers : List (WorkerState ε)
  firstErr : Option ε
deriving Repr, DecidableEq

/-- One scheduler step of `processBatch`: run worker `w` to its next
suspension point.  An idle worker claims `nextIndex++` (atomic between
awaits) or finishes when no work remains; a busy worker's awaited
`fn(items[index])` resolves, writing `results[index] = ...`, or rejects,
ending that worker's loop and recording the batch rejection. -/
def batchStep (items : List α) (fn : α → Except ε ρ)
    (st : BatchState ε ρ) (w : Nat) : BatchState ε ρ :=
  match st.workers[w]? with
  | none => st
  | some .idle =>
    if st.nextIndex < items.length then
      ⟨st.nextIndex + 1, st.results, st.workers.set w (.busy st.nextIndex), st.firstErr⟩
    else
      ⟨st.nextIndex, st.results, st.workers.set w .finished, st.firstErr⟩
  | some (.busy i) =>
    match items[i]? with
    | none => st
    | some a =>
      match fn a with
      | .ok r =>
        ⟨st.nextIndex, st.results.set i (some r), st.workers.set w .idle, st.firstErr⟩
      | .error e =>
        ⟨st.nextIndex, st.results, st.workers.set w (.failed i e),
         match st.firstErr with
         | some e₀ => some e₀
         | none => some e⟩
  | some (.failed _ _) => st
  | some .finished => st

/-- Run a schedule of worker choices. -/
def batchRun (items : List α) (fn : α → Except ε ρ) :
    BatchState ε ρ → List Nat → BatchState ε ρ
  | st, [] => st
  | st, w :: ws => batchRun items fn (batchStep items fn st w) ws

/-- The initial state: index 0, `new Array(items.length)`, `k` workers
spawned idle, no rejection. -/
def batchInit (ε ρ : Type) (len k : Nat) : BatchState ε ρ :=
  ⟨0, List.replicate len none, List.replicate k WorkerState.idle, none⟩

/-- The worker count `Math.min(concurrency, items.length)`. -/
def numWorkers (concurrency len : Nat) : Nat := min concurrency len

/-- Every worker has returned from its loop without rejecting. -/
def allFinished (st : BatchState ε ρ) : Bool :=
  st.workers.all (fun w =>
    match w with
    | .finished => true
    | _ => false)

/-- Every worker has settled (returned or rejected): `Promise.all` is
settled exactly in these states. -/
def allSettled (st : BatchState ε ρ) : Bool :=
  st.workers.all (fun w =>
    match w with
    | .finished => true
    | .failed _ _ => true
    | _ => false)

/-- What the `processBatch` promise settles to: the first rejection if
any worker rejected, otherwise the results array. -/
def batchOutcome (st : BatchState ε ρ) : Except ε (List (Option ρ)) :=
  match st.firstErr with
  | some e => .error e
  | none => .ok st.results

/-- The `processBatch` run invariant. -/
def BatchInv (items : List α) (fn : α → Except ε ρ) (st : BatchState ε ρ) : Prop :=
  st.results.length = items.length ∧
  st.nextIndex ≤ items.length ∧
  (∀ i, i < st.nextIndex →
    (∃ a r, items[i]? = some a ∧ fn a = .ok r ∧ st.results[i]? = some (some r)) ∨
    (∃ j : Nat, st.workers[j]? = some (WorkerState.busy i)) ∨
    (∃ (j : Nat) (e : ε), st.workers[j]? = some (WorkerState.failed i e))) ∧
  (∀ j i : Nat, st.workers[j]? = some (WorkerState.busy i) → i < items.length) ∧
  ((∃ j : Nat, st.workers[j]? = some WorkerState.finished) → items.length ≤ st.nextIndex) ∧
  (st.firstErr.isSome = true ↔ ∃ (j i : Nat) (e : ε), st.workers[j]? = some (WorkerState.failed i e))

/-- `TEXT_CONCURRENCY` from the source: the cheap/text pool capacity. -/
def TEXT_CONCURRENCY : Nat := 3

/-- `VISION_CONCURRENCY` from the source: the expensive/vision pool
capacity. -/
def VISION_CONCURRENCY : Nat := 1

/-- A task interacting with a `Semaphore`, by the synchronous segments of
`run` between `await` points: `entry` is about to execute the admission
check; `queued` is suspended on the queued resolver; `woken` has been
resolved by a releaser but its continuation (`running++`) has not run
yet; `active` is inside `fn`; `done` has released. -/
inductive SemTask
  | entry
  | queued
  | woken
  | active
  | done
deriving Repr, DecidableEq

/-- A `Semaphore` state: the `running` counter, the resolver queue (task
ids in FIFO order), and each task's phase. -/
structure SemState where
  running : Nat
  queue : List Nat
  tasks : List SemTask
deriving Repr, DecidableEq

/-- One scheduler step: run task `t` to its next suspension point.
`entry` checks `running >= concurrency` and either enqueues itself or
increments `running` and starts `fn`; `woken` resumes after the `await`,
increments `running` and starts `fn`; `active` completes `fn`, and its
`finally` block decrements `running` and resolves the queue head. -/
def semStep (cap : Nat) (st : SemState) (t : Nat) : SemState :=
  match st.tasks[t]? with
  | some SemTask.entry =>
    if cap ≤ st.running then
      ⟨st.running, st.queue ++ [t], st.tasks.set t SemTask.queued⟩
    else
      ⟨st.running + 1, st.queue, st.tasks.set t SemTask.active⟩
  | some SemTask.woken =>
    ⟨st.running + 1, st.queue, st.tasks.set t SemTask.active⟩
  | some SemTask.active =>
    match st.queue with
    | [] => ⟨st.running - 1, [], st.tasks.set t SemTask.done⟩
    | h :: rest =>
      ⟨st.running - 1, rest, (st.tasks.set t SemTask.done).set h SemTask.woken⟩
  | _ => st

/-- Run a schedule of task choices. -/
def semRun (cap : Nat) (st : SemState) : List Nat → SemState
  | [] => st
  | t :: ts => semRun cap (semStep cap st t) ts

/-- `n` tasks about to call `run` on an idle semaphore. -/
def semInit (n : Nat) : SemState := ⟨0, [], List.replicate n SemTask.entry⟩

/-- How many tasks are concurrently inside `fn`. -/
def activeCount (st : SemState) : Nat :=
  st.tasks.countP (fun x => x == SemTask.active)

end Earnings

namespace Earnings

/-- C1: the cheap-tier record escalates iff the company identifier is
falsy or fewer than 2 of the 7 financial fields are present; when it does
not escalate, the strategy returns the cheap record and never invokes the
vision tier. -/
theorem needsFallback_characterization (d : ExtractedData)
    (textResult : Except String String) (text : String)
    (cheapFn : String → Except JsErr ExtractedData)
    (visionFn : Except JsErr ExtractedData) (r : ExtractedData) :
    (needsFallback d =
      (isBlank d.company_name ||
        decide ((financialFields d).countP (fun f => f.isSome) < 2))) ∧
    (textResult = .ok text → ¬ (jsTrim text).length < 100 →
      cheapFn text = .ok r → needsFallback r = false →
      extractFromPDF textResult cheapFn visionFn = (.ok r, [Tier.cheap])) ∧
    (textResult = .ok text → ¬ (jsTrim text).length < 100 →
      cheapFn text = .ok r → needsFallback r = true →
      extractFromPDF textResult cheapFn visionFn =
        (visionFn, [Tier.cheap, Tier.vision])) := by
  refine ⟨?_, ?_, ?_⟩
  · unfold needsFallback
    cases h : isBlank d.company_name <;> simp [h]
  · intro ht hlen hc hn
    simp [extractFromPDF, ht, hlen, hc, hn]
  · intro ht hlen hc hn
    simp [extractFromPDF, ht, hlen, hc, hn]

/-- Witness for `needsFallback_characterization` at a concrete record and
concrete collaborators. -/
theorem needsFallback_characterization_witness :
    extractFromPDF
      (.ok (String.mk (List.replicate 120 'x')))
      (fun _ => .ok
        { company_name := some "Acme", quarter := some "Q1 2025",
          total_revenue := some "$5B", earnings_per_share := some "$1.59",
          net_income := none, operating_income := none, gross_margin := none,
          operating_expenses := none, buybacks_and_dividends := none })
      (.error (.other "unused")) =
      (.ok { company_name := some "Acme", quarter := some "Q1 2025",
             total_revenue := some "$5B", earnings_per_share := some "$1.59",
             net_income := none, operating_income := none, gross_margin := none,
             operating_expenses := none, buybacks_and_dividends := none },
       [Tier.cheap]) := by
  exact (needsFallback_characterization
    { company_name := some "Acme", quarter := some "Q1 2025",
      total_revenue := some "$5B", earnings_per_share := some "$1.59",
      net_income := none, operating_income := none, gross_margin := none,
      operating_expenses := none, buybacks_and_dividends := none }
    (.ok (String.mk (List.replicate 120 'x')))
    (String.mk (List.replicate 120 'x'))
    (fun _ => .ok
      { company_name := some "Acme", quarter := some "Q1 2025",
        total_revenue := some "$5B", earnings_per_share := some "$1.59",
        net_income := none, operating_income := none, gross_margin := none,
        operating_expenses := none, buybacks_and_dividends := none })
    (.error (.other "unused"))
    _).2.1 rfl (by decide) rfl (by decide)



/-- C3: `withRetry` with `maxAttempts = 4` retries only on the
rate-limited failure: a collaborator failing rate-limited twice then
succeeding yields the success after exactly 3 calls; one always failing
rate-limited fails terminally after exactly 4 calls; one whose first
failure is not a rate limit surfaces the classified failure after
exactly 1 call. -/
theorem withRetry_policy {α : Type} (f₁ f₂ f₃ : Nat → Except JsErr α)
    (v : α) (e₁ e₂ e₃ e₄ : JsErr)
    (hf0 : f₁ 0 = .error e₁) (hr0 : isRateLimit e₁ = true)
    (hf1 : f₁ 1 = .error e₂) (hr1 : isRateLimit e₂ = true)
    (hf2 : f₁ 2 = .ok v)
    (hg : ∀ k, f₂ k = .error e₃) (hr3 : isRateLimit e₃ = true)
    (hh : f₃ 0 = .error e₄) (hr4 : isRateLimit e₄ = false) :
    withRetry f₁ RETRY_MAX_ATTEMPTS = (.ok v, 3) ∧
    withRetry f₂ RETRY_MAX_ATTEMPTS = (.error (throwAPIError e₃), 4) ∧
    withRetry f₃ RETRY_MAX_ATTEMPTS = (.error (throwAPIError e₄), 1) := by
  refine ⟨?_, ?_, ?_⟩
  · simp [withRetry, RETRY_MAX_ATTEMPTS, withRetryGo, hf0, hf1, hf2, hr0, hr1]
  · simp [withRetry, RETRY_MAX_ATTEMPTS, withRetryGo, hg, hr3]
  · simp [withRetry, RETRY_MAX_ATTEMPTS, withRetryGo, hh, hr4]

/-- Witness for `withRetry_policy` at concrete collaborators. -/
theorem withRetry_policy_witness :
    withRetry (fun k => if k < 2 then .error (.api 429 "slow down") else .ok 7)
        RETRY_MAX_ATTEMPTS = (.ok 7, 3) ∧
    withRetry (fun _ => (.error (.api 429 "slow down") : Except JsErr Nat))
        RETRY_MAX_ATTEMPTS =
      (.error (.other "Claude API error (429): slow down"), 4) ∧
    withRetry (fun _ => (.error (.api 400 "bad prompt") : Except JsErr Nat))
        RETRY_MAX_ATTEMPTS =
      (.error (.other "Claude API request error: bad prompt"), 1) :=
  withRetry_policy
    (fun k => if k < 2 then .error (.api 429 "slow down") else .ok 7)
    (fun _ => .error (.api 429 "slow down"))
    (fun _ => .error (.api 400 "bad prompt"))
    7 (.api 429 "slow down") (.api 429 "slow down") (.api 429 "slow down")
    (.api 400 "bad prompt")
    rfl (by decide) rfl (by decide) rfl
    (fun k => rfl) (by decide) rfl (by decide)

/-- C9: a document whose text extraction fails outright, or whose
extracted text trims to fewer than 100 characters, goes straight to the
vision tier; the cheap tier is never invoked. -/
theorem shortText_goes_to_vision (textResult : Except String String)
    (cheapFn : String → Except JsErr ExtractedData)
    (visionFn : Except JsErr ExtractedData)
    (h : (∃ msg, textResult = .error msg) ∨
         (∃ text, textResult = .ok text ∧ (jsTrim text).length < 100)) :
    extractFromPDF textResult cheapFn visionFn = (visionFn, [Tier.vision]) := by
  rcases h with ⟨msg, hmsg⟩ | ⟨text, htext, hlen⟩
  · simp [extractFromPDF, hmsg]
  · simp [extractFromPDF, htext, hlen]

/-- Witness for `shortText_goes_to_vision` at a concrete short text. -/
theorem shortText_goes_to_vision_witness :
    extractFromPDF (.ok "scanned image only")
      (fun _ => .error (.other "cheap tier must not run"))
      (.ok { company_name := some "Acme", quarter := some "Q1 2025",
             total_revenue := none, earnings_per_share := none,
             net_income := none, operating_income := none, gross_margin := none,
             operating_expenses := none, buybacks_and_dividends := none }) =
      (.ok { company_name := some "Acme", quarter := some "Q1 2025",
             total_revenue := none, earnings_per_share := none,
             net_income := none, operating_income := none, gross_margin := none,
             operating_expenses := none, buybacks_and_dividends := none },
       [Tier.vision]) :=
  shortText_goes_to_vision (.ok "scanned image only")
    (fun _ => .error (.other "cheap tier must not run"))
    (.ok { company_name := some "Acme", quarter := some "Q1 2025",
           total_revenue := none, earnings_per_share := none,
           net_income := none, operating_income := none, gross_margin := none,
           operating_expenses := none, buybacks_and_dividends := none })
    (Or.inr ⟨"scanned image only", rfl, by decide⟩)

/-- Helper: `dropUntilOpen` skips a prefix without opening braces. -/
theorem dropUntilOpen_append (pre rest : List Char) (hpre : '{' ∉ pre)
    (hrest : ∃ r, rest = '{' :: r) :
    dropUntilOpen (pre ++ rest) = some rest := by
  induction pre with
  | nil =>
    obtain ⟨r, hr⟩ := hrest
    simp [hr, dropUntilOpen]
  | cons c cs ih =>
    have hc : c ≠ '{' := by
      intro h
      exact hpre (by simp [h])
    have hcs : '{' ∉ cs := fun h => hpre (by simp [h])
    simp [dropUntilOpen, hc, ih hcs]

/-- Helper: `dropUntilCloseRev` skips a prefix without closing braces. -/
theorem dropUntilCloseRev_append (pre rest : List Char) (hpre : '}' ∉ pre)
    (hrest : ∃ r, rest = '}' :: r) :
    dropUntilCloseRev (pre ++ rest) = some rest := by
  induction pre with
  | nil =>
    obtain ⟨r, hr⟩ := hrest
    simp [hr, dropUntilCloseRev]
  | cons c cs ih =>
    have hc : c ≠ '}' := by
      intro h
      exact hpre (by simp [h])
    have hcs : '}' ∉ cs := fun h => hpre (by simp [h])
    simp [dropUntilCloseRev, hc, ih hcs]

/-- Helper: the greedy brace match of an object embedded in brace-free
prose is exactly the object. -/
theorem greedy_of_embedded (pre mid post : List Char)
    (hpre : '{' ∉ pre) (hpost : '}' ∉ post) :
    greedyBraceMatch (String.mk (pre ++ ('{' :: mid ++ ['}']) ++ post)) =
      some (String.mk ('{' :: mid ++ ['}'])) := by
  have h1 : dropUntilOpen (pre ++ (('{' :: mid ++ ['}']) ++ post))
      = some (('{' :: mid ++ ['}']) ++ post) :=
    dropUntilOpen_append pre (('{' :: mid ++ ['}']) ++ post) hpre
      ⟨mid ++ ['}'] ++ post, by simp⟩
  have h2 : dropUntilCloseRev ((('{' :: mid ++ ['}']) ++ post).reverse)
      = some ('}' :: (mid.reverse ++ ['{'])) := by
    have hrev : (('{' :: mid ++ ['}']) ++ post).reverse
        = post.reverse ++ ('}' :: (mid.reverse ++ ['{'])) := by simp
    rw [hrev]
    exact dropUntilCloseRev_append post.reverse ('}' :: (mid.reverse ++ ['{']))
      (by simpa using hpost) ⟨mid.reverse ++ ['{'], rfl⟩
  have hdata : (String.mk (pre ++ ('{' :: mid ++ ['}']) ++ post)).data
      = pre ++ (('{' :: mid ++ ['}']) ++ post) := by simp
  simp only [List.cons_append, List.append_assoc, List.nil_append] at h1 h2
  simp only [greedyBraceMatch, hdata]
  simp only [List.cons_append, List.append_assoc, List.nil_append]
  rw [h1]
  simp only [List.cons_append, List.append_assoc, List.nil_append] at h2 ⊢
  rw [h2]
  simp

/-- C6 (amended): `parseResponse` first attempts a strict parse; when a
structured object is embedded in prose whose leading part has no opening
brace and whose trailing part has no closing brace, the fallback parses
the greedy first-open-to-last-close brace substring, which is that object,
so the parse equals parsing the object alone; when both attempts fail the
result is the terminal parse failure, which is not a rate-limit signal and
hence never retried. -/
theorem parseResponse_structure (t : String) (v : JVal)
    (pre mid post : List Char)
    (hpre : '{' ∉ pre) (hpost : '}' ∉ post) :
    (jsonParse t = some v → parseResponse [.text t] = .ok v) ∧
    (jsonParse (String.mk (pre ++ ('{' :: mid ++ ['}']) ++ post)) = none →
      jsonParse (String.mk ('{' :: mid ++ ['}'])) = some v →
      parseResponse [.text (String.mk (pre ++ ('{' :: mid ++ ['}']) ++ post))] = .ok v) ∧
    (jsonParse t = none → greedyBraceMatch t = none →
      parseResponse [.text t] = .error "Failed to parse extraction response as JSON") ∧
    (∀ m, isRateLimit (.other m) = false) := by
  refine ⟨?_, ?_, ?_, ?_⟩
  · intro h
    simp [parseResponse, firstTextBlock, h]
  · intro hnone hobj
    have hg := greedy_of_embedded pre mid post hpre hpost
    simp only [List.cons_append, List.append_assoc, List.nil_append] at hnone hg hobj ⊢
    simp [parseResponse, firstTextBlock, hnone, hg]
    rw [hobj]
  · intro hnone hg
    simp [parseResponse, firstTextBlock, hnone, hg]
  · intro m
    rfl

/-- Witness for `parseResponse_structure` at a concrete embedded reply. -/
theorem parseResponse_structure_witness :
    parseResponse [.text (String.mk (("reply: ".data) ++ ('{' :: ("\"a\": 1".data) ++ ['}']) ++ (" done".data)))] =
      .ok (.jobj [("a", .jnum ⟨1, 0⟩)]) := by
  exact (parseResponse_structure
    (String.mk (("reply: ".data) ++ ('{' :: ("\"a\": 1".data) ++ ['}']) ++ (" done".data)))
    (.jobj [("a", .jnum ⟨1, 0⟩)])
    ("reply: ".data) ("\"a\": 1".data) (" done".data)
    (by decide) (by decide)).2.1 rfl rfl

/-- C6 counterexample: a reply whose prose embeds two objects.  The first
balanced structured-object substring parses on its own, yet `parseResponse`
reports a terminal parse failure, because the implemented fallback greedily
takes everything from the first opening to the last closing brace. -/
theorem parseResponse_greedy_counterexample :
    parseResponse [.text "pre \x7b\"a\": 1\x7d mid \x7b\"b\": 2\x7d post"] =
      .error "Failed to parse extraction response as JSON" ∧
    firstBalancedObject "pre \x7b\"a\": 1\x7d mid \x7b\"b\": 2\x7d post" =
      some "\x7b\"a\": 1\x7d" ∧
    jsonParse "\x7b\"a\": 1\x7d" = some (.jobj [("a", .jnum ⟨1, 0⟩)]) :=
  ⟨rfl, rfl, rfl⟩

/-- C7: `validateExtraction` is valid exactly when the error list is
empty; errors arise exactly for a missing company name and a missing
quarter; the warnings include the gross-margin range warning when the
normalized margin lies outside [0,1], the income-exceeds-revenue warning
when the parsed net income exceeds the parsed revenue, and the no-data
warning when all 7 financial fields are null — with the record still
valid in that case whenever company and quarter are present. -/
theorem validateExtraction_spec (d : ExtractedData) (g : String) (x r ni : Dec) :
    ((validateExtraction d).valid = true ↔ (validateExtraction d).errors = []) ∧
    ("Missing company name" ∈ (validateExtraction d).errors ↔
      isBlank d.company_name = true) ∧
    ("Missing quarter" ∈ (validateExtraction d).errors ↔ isBlank d.quarter = true) ∧
    (∀ e ∈ (validateExtraction d).errors,
      e = "Missing company name" ∨ e = "Missing quarter") ∧
    (d.gross_margin = some g → g.isEmpty = false → normalizeGrossMargin g = some x →
      (x.blt ⟨0, 0⟩ || Dec.blt ⟨1, 0⟩ x) = true →
      ("Gross margin " ++ g ++ " outside expected range 0-100%") ∈
        (validateExtraction d).warnings) ∧
    (parseFinancialString d.total_revenue = some r →
      parseFinancialString d.net_income = some ni → r.blt ni = true →
      "Net income exceeds total revenue" ∈ (validateExtraction d).warnings) ∧
    ((financialFields d).countP (fun f => f.isSome) = 0 →
      "No financial data was extracted" ∈ (validateExtraction d).warnings) ∧
    ((financialFields d).countP (fun f => f.isSome) = 0 →
      isBlank d.company_name = false → isBlank d.quarter = false →
      (validateExtraction d).valid = true) := by
  refine ⟨?_, ?_, ?_, ?_, ?_, ?_, ?_, ?_⟩
  · simp [validateExtraction, List.length_eq_zero]
  · cases h1 : isBlank d.company_name <;> cases h2 : isBlank d.quarter <;>
      simp [validateExtraction, valErrors, h1, h2]
  · cases h1 : isBlank d.company_name <;> cases h2 : isBlank d.quarter <;>
      simp [validateExtraction, valErrors, h1, h2]
  · cases h1 : isBlank d.company_name <;> cases h2 : isBlank d.quarter <;>
      simp [validateExtraction, valErrors, h1, h2]
  · intro hg hne hnorm hcond
    simp [validateExtraction, gmWarnings, hg, hne, hnorm, hcond]
  · intro hr hni hlt
    simp [validateExtraction, netIncomeWarnings, hr, hni, hlt]
  · intro hcount
    simp [validateExtraction, noDataWarnings, hcount]
  · intro hcount h1 h2
    simp [validateExtraction, valErrors, h1, h2]

/-- Witness for `validateExtraction_spec`: gross margin "150%", net
income "$5B" against revenue "$3B", and an all-null financial record. -/
theorem validateExtraction_spec_witness :
    ("Gross margin 150% outside expected range 0-100%") ∈
      (validateExtraction
        { company_name := some "Acme", quarter := some "Q1 2025",
          total_revenue := some "$3B", earnings_per_share := none,
          net_income := some "$5B", operating_income := none,
          gross_margin := some "150%", operating_expenses := none,
          buybacks_and_dividends := none }).warnings ∧
    "Net income exceeds total revenue" ∈
      (validateExtraction
        { company_name := some "Acme", quarter := some "Q1 2025",
          total_revenue := some "$3B", earnings_per_share := none,
          net_income := some "$5B", operating_income := none,
          gross_margin := some "150%", operating_expenses := none,
          buybacks_and_dividends := none }).warnings ∧
    "No financial data was extracted" ∈
      (validateExtraction
        { company_name := some "Acme", quarter := some "Q1 2025",
          total_revenue := none, earnings_per_share := none,
          net_income := none, operating_income := none, gross_margin := none,
          operating_expenses := none, buybacks_and_dividends := none }).warnings ∧
    (validateExtraction
        { company_name := some "Acme", quarter := some "Q1 2025",
          total_revenue := none, earnings_per_share := none,
          net_income := none, operating_income := none, gross_margin := none,
          operating_expenses := none, buybacks_and_dividends := none }).valid = true := by
  refine ⟨?_, ?_, ?_, ?_⟩
  · exact (validateExtraction_spec
      { company_name := some "Acme", quarter := some "Q1 2025",
        total_revenue := some "$3B", earnings_per_share := none,
        net_income := some "$5B", operating_income := none,
        gross_margin := some "150%", operating_expenses := none,
        buybacks_and_dividends := none }
      "150%" ⟨150, 2⟩ ⟨3000000000, 0⟩ ⟨5000000000, 0⟩).2.2.2.2.1
      rfl rfl (by decide) (by decide)
  · exact (validateExtraction_spec
      { company_name := some "Acme", quarter := some "Q1 2025",
        total_revenue := some "$3B", earnings_per_share := none,
        net_income := some "$5B", operating_income := none,
        gross_margin := some "150%", operating_expenses := none,
        buybacks_and_dividends := none }
      "150%" ⟨150, 2⟩ ⟨3000000000, 0⟩ ⟨5000000000, 0⟩).2.2.2.2.2.1
      (by decide) (by decide) (by decide)
  · exact (validateExtraction_spec
      { company_name := some "Acme", quarter := some "Q1 2025",
        total_revenue := none, earnings_per_share := none,
        net_income := none, operating_income := none, gross_margin := none,
        operating_expenses := none, buybacks_and_dividends := none }
      "" ⟨0, 0⟩ ⟨0, 0⟩ ⟨0, 0⟩).2.2.2.2.2.2.1 (by decide)
  · exact (validateExtraction_spec
      { company_name := some "Acme", quarter := some "Q1 2025",
        total_revenue := none, earnings_per_share := none,
        net_income := none, operating_income := none, gross_margin := none,
        operating_expenses := none, buybacks_and_dividends := none }
      "" ⟨0, 0⟩ ⟨0, 0⟩ ⟨0, 0⟩).2.2.2.2.2.2.2 (by decide) (by decide) (by decide)


/-- Helper: pruning at an earlier time and then at a later time is the
same as pruning at the later time alone (monotone clock). -/
theorem filter_window_mono (window now now' : Nat) (h : now ≤ now') (l : List Nat) :
    (l.filter (fun t => now - t < window)).filter (fun t => now' - t < window)
      = l.filter (fun t => now' - t < window) := by
  rw [List.filter_filter]
  apply List.filter_congr
  intro a _
  by_cases hq : now' - a < window
  · have hp : now - a < window := lt_of_le_of_lt (Nat.sub_le_sub_right h a) hq
    simp [hp, hq]
  · simp [hq]

/-- Helper: with nondecreasing check times, the implementation store and
the spec accumulator of allowed times agree on every window filter, so
the allow/deny decisions coincide. -/
theorem rlRun_spec_general (window maxReq : Nat) :
    ∀ (times store acc : List Nat) (b : Nat),
      List.Pairwise (· ≤ ·) times →
      (∀ x ∈ times, b ≤ x) →
      (∀ now, b ≤ now →
        store.filter (fun t => now - t < window) =
          acc.filter (fun t => now - t < window)) →
      (rlRun window maxReq store times).1.map (fun r => r.allowed) =
        specAllowed window maxReq acc times := by
  intro times
  induction times with
  | nil => intro store acc b _ _ _; rfl
  | cons now rest ih =>
    intro store acc b hpw hb hag
    have hbnow : b ≤ now := hb now (by simp)
    have hprune : store.filter (fun t => now - t < window) =
        acc.filter (fun t => now - t < window) := hag now hbnow
    have hrest : ∀ x ∈ rest, now ≤ x := (List.pairwise_cons.mp hpw).1
    have hpw' : List.Pairwise (· ≤ ·) rest := (List.pairwise_cons.mp hpw).2
    by_cases hle : maxReq ≤ (pruneWindow window now store).length
    · -- denied
      have hspec : ¬ (acc.filter (fun t => now - t < window)).length < maxReq := by
        simpa [pruneWindow, hprune] using Nat.not_lt.mpr hle
      have hag' : ∀ now', now ≤ now' →
          (pruneWindow window now store).filter (fun t => now' - t < window) =
            acc.filter (fun t => now' - t < window) := by
        intro now' h'
        calc (pruneWindow window now store).filter (fun t => now' - t < window)
            = (acc.filter (fun t => now - t < window)).filter
                (fun t => now' - t < window) := by rw [pruneWindow, hprune]
          _ = acc.filter (fun t => now' - t < window) :=
              filter_window_mono window now now' h' acc
      simp only [rlRun, specAllowed, checkRateLimit, List.map_cons]
      rw [if_pos hle]
      rw [decide_eq_false hspec]
      rw [if_neg Bool.false_ne_true]
      exact congrArg₂ List.cons rfl
        (ih (pruneWindow window now store) acc now hpw' hrest hag')
    · -- allowed
      have hspec : (acc.filter (fun t => now - t < window)).length < maxReq := by
        have := Nat.lt_of_not_le hle
        simpa [pruneWindow, hprune] using this
      have hag' : ∀ now', now ≤ now' →
          (pruneWindow window now store ++ [now]).filter (fun t => now' - t < window) =
            (acc ++ [now]).filter (fun t => now' - t < window) := by
        intro now' h'
        have h1 : (pruneWindow window now store).filter (fun t => now' - t < window) =
            acc.filter (fun t => now' - t < window) := by
          calc (pruneWindow window now store).filter (fun t => now' - t < window)
              = (acc.filter (fun t => now - t < window)).filter
                  (fun t => now' - t < window) := by rw [pruneWindow, hprune]
            _ = acc.filter (fun t => now' - t < window) :=
                filter_window_mono window now now' h' acc
        simp [List.filter_append, h1]
      simp only [rlRun, specAllowed, checkRateLimit, List.map_cons]
      rw [if_neg hle]
      rw [decide_eq_true hspec]
      rw [if_pos rfl]
      exact congrArg₂ List.cons rfl
        (ih (pruneWindow window now store ++ [now]) (acc ++ [now]) now hpw' hrest hag')

/-- C8: the per-key sliding window.  The implemented decisions equal the
spec "allowed iff fewer than max allowed requests within the last
window"; a denied check reports a retry-after; the concrete 1000ms/2
scenario yields allowed = true, true, false, true; and the defaults are
one hour and 20 requests. -/
theorem checkRateLimit_sliding_window (window maxReq : Nat) (times : List Nat)
    (hsorted : List.Pairwise (· ≤ ·) times) :
    ((rlRun window maxReq [] times).1.map (fun r => r.allowed) =
      specAllowed window maxReq [] times) ∧
    (∀ ts now, (checkRateLimit window maxReq ts now).1.allowed = false →
      (checkRateLimit window maxReq ts now).1.retryAfterMs.isSome = true) ∧
    ((rlRun 1000 2 [] [0, 500, 900, 1000]).1.map (fun r => r.allowed) =
      [true, true, false, true]) ∧
    WINDOW_MS_DEFAULT = 3600000 ∧ MAX_REQUESTS_DEFAULT = 20 := by
  refine ⟨?_, ?_, by decide, by decide, by decide⟩
  · exact rlRun_spec_general window maxReq times [] [] 0 hsorted
      (fun x _ => Nat.zero_le x) (fun _ _ => rfl)
  · intro ts now h
    by_cases hle : maxReq ≤ (pruneWindow window now ts).length
    · simp only [checkRateLimit] at h ⊢
      rw [if_pos hle]
      rfl
    · simp only [checkRateLimit] at h
      rw [if_neg hle] at h
      simp at h

/-- Witness for `checkRateLimit_sliding_window` on the concrete
window=1000ms, max=2 scenario. -/
theorem checkRateLimit_sliding_window_witness :
    (rlRun 1000 2 [] [0, 500, 900, 1000]).1.map (fun r => r.allowed) =
      specAllowed 1000 2 [] [0, 500, 900, 1000] ∧
    (rlRun 1000 2 [] [0, 500, 900, 1000]).1.map (fun r => r.allowed) =
      [true, true, false, true] :=
  ⟨(checkRateLimit_sliding_window 1000 2 [0, 500, 900, 1000] (by decide)).1,
   (checkRateLimit_sliding_window 1000 2 [0, 500, 900, 1000] (by decide)).2.2.1⟩

/-- Helper: one check keeps the stored list within the maximum. -/
theorem checkRateLimit_store_le (window maxReq : Nat) (ts : List Nat) (now : Nat)
    (h : ts.length ≤ maxReq) :
    ((checkRateLimit window maxReq ts now).2).length ≤ maxReq := by
  by_cases hle : maxReq ≤ (pruneWindow window now ts).length
  · simp only [checkRateLimit]
    rw [if_pos hle]
    exact le_trans (List.length_filter_le _ _) h
  · simp only [checkRateLimit]
    rw [if_neg hle]
    have := Nat.lt_of_not_le hle
    simp only [List.length_append, List.length_cons, List.length_nil]
    omega

/-- Helper: any run of checks keeps the stored list within the maximum. -/
theorem rlRun_store_le (window maxReq : Nat) :
    ∀ (times ts : List Nat), ts.length ≤ maxReq →
      ((rlRun window maxReq ts times).2).length ≤ maxReq := by
  intro times
  induction times with
  | nil => intro ts h; exact h
  | cons now rest ih =>
    intro ts h
    simp only [rlRun]
    exact ih _ (checkRateLimit_store_le window maxReq ts now h)

/-- Helper: on a denied check against a store already within the
maximum, pruning removes nothing. -/
theorem pruned_eq_of_denied (window maxReq : Nat) (ts : List Nat) (now : Nat)
    (hlen : ts.length ≤ maxReq)
    (hle : maxReq ≤ (pruneWindow window now ts).length) :
    pruneWindow window now ts = ts := by
  apply List.Sublist.eq_of_length (List.filter_sublist ts)
  have h1 : (pruneWindow window now ts).length ≤ ts.length :=
    List.length_filter_le _ _
  simp only [pruneWindow] at hle h1 ⊢
  omega

/-- C10: a denied check stores only the pruned timestamps (never appends
its own); the stored list never exceeds the configured maximum; and for
two consecutive denied checks the reported retry-after values point to
the same lockout end, determined solely by the oldest recorded allowed
request. -/
theorem rateLimit_denial_invariants (window maxReq : Nat) (ts : List Nat)
    (now₁ now₂ : Nat) (times : List Nat)
    (hM : 0 < maxReq) (hlen : ts.length ≤ maxReq)
    (hts : ∀ t ∈ ts, t ≤ now₁) (h12 : now₁ ≤ now₂)
    (hd₁ : (checkRateLimit window maxReq ts now₁).1.allowed = false)
    (hd₂ : (checkRateLimit window maxReq
            (checkRateLimit window maxReq ts now₁).2 now₂).1.allowed = false) :
    ((checkRateLimit window maxReq ts now₁).2 = pruneWindow window now₁ ts) ∧
    ((rlRun window maxReq [] times).2).length ≤ maxReq ∧
    (∃ o, o ∈ ts ∧
      (checkRateLimit window maxReq ts now₁).1.retryAfterMs =
        some (window - (now₁ - o)) ∧
      (checkRateLimit window maxReq
        (checkRateLimit window maxReq ts now₁).2 now₂).1.retryAfterMs =
        some (window - (now₂ - o)) ∧
      now₁ + (window - (now₁ - o)) = now₂ + (window - (now₂ - o))) := by
  have hle₁ : maxReq ≤ (pruneWindow window now₁ ts).length := by
    by_contra hle
    simp only [checkRateLimit] at hd₁
    rw [if_neg hle] at hd₁
    simp at hd₁
  have hp₁ : pruneWindow window now₁ ts = ts :=
    pruned_eq_of_denied window maxReq ts now₁ hlen hle₁
  have hstore : (checkRateLimit window maxReq ts now₁).2 = ts := by
    simp only [checkRateLimit]
    rw [if_pos hle₁]
    exact hp₁
  have hle₂ : maxReq ≤ (pruneWindow window now₂ ts).length := by
    by_contra hle
    rw [hstore] at hd₂
    simp only [checkRateLimit] at hd₂
    rw [if_neg hle] at hd₂
    simp at hd₂
  have hp₂ : pruneWindow window now₂ ts = ts :=
    pruned_eq_of_denied window maxReq ts now₂ hlen hle₂
  have hne : ts ≠ [] := by
    intro h
    rw [h] at hle₁
    simp [pruneWindow] at hle₁
    omega
  refine ⟨by simp only [checkRateLimit]; rw [if_pos hle₁],
          rlRun_store_le window maxReq times [] (by simp),
          ts.headD 0, ?_, ?_, ?_, ?_⟩
  · cases ts with
    | nil => exact absurd rfl hne
    | cons a l => simp
  · simp only [checkRateLimit]
    rw [if_pos hle₁, hp₁]
  · rw [hstore]
    simp only [checkRateLimit]
    rw [if_pos hle₂, hp₂]
  · have homem : ts.headD 0 ∈ ts := by
      cases ts with
      | nil => exact absurd rfl hne
      | cons a l => simp
    have h1 : ts.headD 0 ∈ pruneWindow window now₁ ts := by
      rw [hp₁]; exact homem
    have h2 : ts.headD 0 ∈ pruneWindow window now₂ ts := by
      rw [hp₂]; exact homem
    have hw₁ : now₁ - ts.headD 0 < window := by
      have := (List.mem_filter.mp h1).2
      simpa using this
    have hw₂ : now₂ - ts.headD 0 < window := by
      have := (List.mem_filter.mp h2).2
      simpa using this
    have hle' : ts.headD 0 ≤ now₁ := hts _ homem
    omega

/-- Witness for `rateLimit_denial_invariants` with two denials at 600ms
and 800ms after two allowed requests. -/
theorem rateLimit_denial_invariants_witness :
    ((checkRateLimit 1000 2 [0, 500] 600).2 = pruneWindow 1000 600 [0, 500]) ∧
    ((rlRun 1000 2 [] [0, 500, 600]).2).length ≤ 2 ∧
    (∃ o, o ∈ [0, 500] ∧
      (checkRateLimit 1000 2 [0, 500] 600).1.retryAfterMs =
        some (1000 - (600 - o)) ∧
      (checkRateLimit 1000 2
        (checkRateLimit 1000 2 [0, 500] 600).2 800).1.retryAfterMs =
        some (1000 - (800 - o)) ∧
      600 + (1000 - (600 - o)) = 800 + (1000 - (800 - o))) :=
  rateLimit_denial_invariants 1000 2 [0, 500] 600 800 [0, 500, 600]
    (by decide) (by decide) (by decide) (by decide) (by decide) (by decide)

/-- Helper: reading an index of a `set` list that holds a value other
than the written one reads the original list. -/
theorem getElem?_set_inv {β : Type} {l : List β} {w j : Nat} {v x : β}
    (h : (l.set w v)[j]? = some x) (hne : x ≠ v) : l[j]? = some x := by
  rcases eq_or_ne w j with rfl | hwj
  · rw [List.getElem?_set] at h
    simp at h
    rcases h with ⟨h1, h2⟩
    exact absurd h2.symm hne
  · rwa [List.getElem?_set_ne hwj] at h

/-- Helper: `set` at a position holding a different value preserves
other reads. -/
theorem getElem?_set_keep {β : Type} {l : List β} {w j : Nat} {v x old : β}
    (hw : l[w]? = some old) (h : l[j]? = some x) (hne : x ≠ old) :
    (l.set w v)[j]? = some x := by
  have hwj : w ≠ j := by
    intro he
    rw [← he, hw] at h
    exact hne (Option.some.inj h).symm
  rwa [List.getElem?_set_ne hwj]

/-- Helper: `set` at a valid position reads back the new value. -/
theorem getElem?_set_self_of_some {β : Type} {l : List β} {w : Nat} {v old : β}
    (hw : l[w]? = some old) : (l.set w v)[w]? = some v := by
  have hlt : w < l.length := (List.getElem?_eq_some_iff.mp hw).1
  simp [List.getElem?_set, hlt]

/-- The invariant holds initially. -/
theorem batchInit_inv (items : List α) (fn : α → Except ε ρ) (k : Nat) :
    BatchInv items fn (batchInit ε ρ items.length k) := by
  refine ⟨by simp [batchInit], by simp [batchInit], ?_, ?_, ?_, ?_⟩
  · intro i hi
    simp [batchInit] at hi
  · intro j i h
    simp [batchInit, List.getElem?_replicate] at h
  · rintro ⟨j, hj⟩
    simp [batchInit, List.getElem?_replicate] at hj
  · constructor
    · intro h
      simp [batchInit] at h
    · rintro ⟨j, i, e, hj⟩
      simp [batchInit, List.getElem?_replicate] at hj

/-- The invariant is preserved by every scheduler step. -/
theorem batchStep_inv (items : List α) (fn : α → Except ε ρ) (st : BatchState ε ρ)
    (w : Nat) (h : BatchInv items fn st) :
    BatchInv items fn (batchStep items fn st w) := by
  obtain ⟨hlen, hnext, hclaim, hbusy, hfin, herr⟩ := h
  cases hw : st.workers[w]? with
  | none =>
    simpa [batchStep, hw] using ⟨hlen, hnext, hclaim, hbusy, hfin, herr⟩
  | some ws =>
    cases ws with
    | idle =>
      by_cases hlt : st.nextIndex < items.length
      · -- claim a new index
        simp only [batchStep, hw, if_pos hlt]
        unfold BatchInv
        dsimp only
        refine ⟨hlen, by omega, ?_, ?_, ?_, ?_⟩
        · intro i hi
          rcases Nat.lt_or_ge i st.nextIndex with hi' | hi'
          · rcases hclaim i hi' with h1 | ⟨j, hj⟩ | ⟨j, e, hj⟩
            · exact Or.inl h1
            · exact Or.inr (Or.inl ⟨j, getElem?_set_keep hw hj (by simp)⟩)
            · exact Or.inr (Or.inr ⟨j, e, getElem?_set_keep hw hj (by simp)⟩)
          · have hieq : i = st.nextIndex := by omega
            subst hieq
            exact Or.inr (Or.inl ⟨w, getElem?_set_self_of_some hw⟩)
        · intro j i hj
          by_cases hji : (WorkerState.busy i : WorkerState ε) = WorkerState.busy st.nextIndex
          · have : i = st.nextIndex := by
              injection hji
            omega
          · exact hbusy j i (getElem?_set_inv hj hji)
        · rintro ⟨j, hj⟩
          have : st.workers[j]? = some WorkerState.finished :=
            getElem?_set_inv hj (by simp)
          have := hfin ⟨j, this⟩
          omega
        · constructor
          · intro hsome
            rcases herr.mp hsome with ⟨j, i, e, hj⟩
            exact ⟨j, i, e, getElem?_set_keep hw hj (by simp)⟩
          · rintro ⟨j, i, e, hj⟩
            exact herr.mpr ⟨j, i, e, getElem?_set_inv hj (by simp)⟩
      · -- no work left: finish
        simp only [batchStep, hw, if_neg hlt]
        unfold BatchInv
        dsimp only
        refine ⟨hlen, hnext, ?_, ?_, ?_, ?_⟩
        · intro i hi
          rcases hclaim i hi with h1 | ⟨j, hj⟩ | ⟨j, e, hj⟩
          · exact Or.inl h1
          · exact Or.inr (Or.inl ⟨j, getElem?_set_keep hw hj (by simp)⟩)
          · exact Or.inr (Or.inr ⟨j, e, getElem?_set_keep hw hj (by simp)⟩)
        · intro j i hj
          exact hbusy j i (getElem?_set_inv hj (by simp))
        · intro _
          omega
        · constructor
          · intro hsome
            rcases herr.mp hsome with ⟨j, i, e, hj⟩
            exact ⟨j, i, e, getElem?_set_keep hw hj (by simp)⟩
          · rintro ⟨j, i, e, hj⟩
            exact herr.mpr ⟨j, i, e, getElem?_set_inv hj (by simp)⟩
    | busy i =>
      cases ha : items[i]? with
      | none =>
        simpa [batchStep, hw, ha] using ⟨hlen, hnext, hclaim, hbusy, hfin, herr⟩
      | some a =>
        cases hfa : fn a with
        | ok r =>
          simp only [batchStep, hw, ha, hfa]
          unfold BatchInv
          dsimp only
          have hilen : i < items.length := hbusy w i hw
          refine ⟨by simpa using hlen, hnext, ?_, ?_, ?_, ?_⟩
          · intro i' hi'
            by_cases hii : i' = i
            · subst hii
              refine Or.inl ⟨a, r, ha, hfa, ?_⟩
              have : i' < st.results.length := by omega
              simp [List.getElem?_set, this]
            · rcases hclaim i' hi' with ⟨a', r', ha', hfa', hres⟩ | ⟨j, hj⟩ | ⟨j, e, hj⟩
              · refine Or.inl ⟨a', r', ha', hfa', ?_⟩
                rwa [List.getElem?_set_ne (fun he => hii he.symm)]
              · refine Or.inr (Or.inl ⟨j, ?_⟩)
                refine getElem?_set_keep hw hj ?_
                intro he
                injection he with he'
                exact hii he'
              · exact Or.inr (Or.inr ⟨j, e, getElem?_set_keep hw hj (by simp)⟩)
          · intro j i' hj
            exact hbusy j i' (getElem?_set_inv hj (by simp))
          · rintro ⟨j, hj⟩
            exact hfin ⟨j, getElem?_set_inv hj (by simp)⟩
          · constructor
            · intro hsome
              rcases herr.mp hsome with ⟨j, i', e, hj⟩
              exact ⟨j, i', e, getElem?_set_keep hw hj (by simp)⟩
            · rintro ⟨j, i', e, hj⟩
              exact herr.mpr ⟨j, i', e, getElem?_set_inv hj (by simp)⟩
        | error e =>
          simp only [batchStep, hw, ha, hfa]
          unfold BatchInv
          dsimp only
          refine ⟨hlen, hnext, ?_, ?_, ?_, ?_⟩
          · intro i' hi'
            by_cases hii : i' = i
            · subst hii
              exact Or.inr (Or.inr ⟨w, e, getElem?_set_self_of_some hw⟩)
            · rcases hclaim i' hi' with h1 | ⟨j, hj⟩ | ⟨j, e', hj⟩
              · exact Or.inl h1
              · refine Or.inr (Or.inl ⟨j, ?_⟩)
                refine getElem?_set_keep hw hj ?_
                intro he
                injection he with h1
                exact hii h1
              · exact Or.inr (Or.inr ⟨j, e', getElem?_set_keep hw hj (by simp)⟩)
          · intro j i' hj
            have : st.workers[j]? = some (WorkerState.busy i') :=
              getElem?_set_inv hj (by simp)
            exact hbusy j i' this
          · rintro ⟨j, hj⟩
            exact hfin ⟨j, getElem?_set_inv hj (by simp)⟩
          · constructor
            · intro _
              exact ⟨w, i, e, getElem?_set_self_of_some hw⟩
            · intro _
              cases st.firstErr <;> simp
    | failed i e =>
      simpa [batchStep, hw] using ⟨hlen, hnext, hclaim, hbusy, hfin, herr⟩
    | finished =>
      simpa [batchStep, hw] using ⟨hlen, hnext, hclaim, hbusy, hfin, herr⟩

/-- The invariant holds after any schedule. -/
theorem batchRun_inv (items : List α) (fn : α → Except ε ρ) (st : BatchState ε ρ)
    (sched : List Nat) (h : BatchInv items fn st) :
    BatchInv items fn (batchRun items fn st sched) := by
  induction sched generalizing st with
  | nil => exact h
  | cons w ws ih => exact ih _ (batchStep_inv items fn st w h)

/-- A step never changes the number of workers. -/
theorem batchStep_workers_length (items : List α) (fn : α → Except ε ρ)
    (st : BatchState ε ρ) (w : Nat) :
    (batchStep items fn st w).workers.length = st.workers.length := by
  cases hw : st.workers[w]? with
  | none => simp [batchStep, hw]
  | some ws =>
    cases ws with
    | idle =>
      by_cases hlt : st.nextIndex < items.length
      · simp [batchStep, hw, hlt, List.length_set]
      · simp [batchStep, hw, hlt, List.length_set]
    | busy i =>
      cases ha : items[i]? with
      | none => simp [batchStep, hw, ha]
      | some a =>
        cases hfa : fn a with
        | ok r => simp [batchStep, hw, ha, hfa, List.length_set]
        | error e => simp [batchStep, hw, ha, hfa, List.length_set]
    | failed i e => simp [batchStep, hw]
    | finished => simp [batchStep, hw]

/-- A run never changes the number of workers. -/
theorem batchRun_workers_length (items : List α) (fn : α → Except ε ρ)
    (st : BatchState ε ρ) (sched : List Nat) :
    (batchRun items fn st sched).workers.length = st.workers.length := by
  induction sched generalizing st with
  | nil => rfl
  | cons w ws ih =>
    simp only [batchRun]
    rw [ih, batchStep_workers_length]

/-- C4: for every schedule of worker interleavings under which all
workers finish, `processBatch` produces a results array of the same
length as the input whose `i`-th entry is the outcome of the extraction
function on the `i`-th document, and the batch promise resolves with
exactly that array. -/
theorem processBatch_order (items : List α) (fn : α → Except ε ρ) (k : Nat)
    (sched : List Nat) (hk : 0 < k)
    (hfin : allFinished (batchRun items fn (batchInit ε ρ items.length k) sched) = true) :
    ((batchRun items fn (batchInit ε ρ items.length k) sched).results.length =
      items.length) ∧
    ((batchRun items fn (batchInit ε ρ items.length k) sched).results =
      items.map (fun a => (fn a).toOption)) ∧
    (batchOutcome (batchRun items fn (batchInit ε ρ items.length k) sched) =
      .ok (items.map (fun a => (fn a).toOption))) := by
  have hinv := batchRun_inv items fn (batchInit ε ρ items.length k) sched
    (batchInit_inv items fn k)
  obtain ⟨hlen, hnext, hclaim, hbusy, hfin', herr⟩ := hinv
  have hall := List.all_eq_true.mp hfin
  have hwlen : (batchRun items fn (batchInit ε ρ items.length k) sched).workers.length
      = k := by
    rw [batchRun_workers_length]
    simp [batchInit]
  -- some worker exists and is finished, so all work was claimed
  have h0lt : 0 < (batchRun items fn (batchInit ε ρ items.length k) sched).workers.length := by
    omega
  obtain ⟨v0, hv0⟩ : ∃ v, (batchRun items fn (batchInit ε ρ items.length k) sched).workers[0]? =
      some v := ⟨_, List.getElem?_eq_getElem h0lt⟩
  have hv0fin : v0 = WorkerState.finished := by
    have hmem := List.getElem?_mem hv0
    have := hall v0 hmem
    cases v0 <;> simp_all
  have hdone : items.length ≤
      (batchRun items fn (batchInit ε ρ items.length k) sched).nextIndex :=
    hfin' ⟨0, hv0fin ▸ hv0⟩
  -- no worker is busy or failed
  have hnobusy : ∀ j i : Nat, (batchRun items fn (batchInit ε ρ items.length k) sched).workers[j]? ≠
      some (WorkerState.busy i) := by
    intro j i hj
    have := hall _ (List.getElem?_mem hj)
    simp at this
  have hnofail : ∀ (j i : Nat) (e : ε), (batchRun items fn (batchInit ε ρ items.length k) sched).workers[j]? ≠
      some (WorkerState.failed i e) := by
    intro j i e hj
    have := hall _ (List.getElem?_mem hj)
    simp at this
  have hres : ∀ i, i < items.length →
      ∃ a r, items[i]? = some a ∧ fn a = .ok r ∧
        (batchRun items fn (batchInit ε ρ items.length k) sched).results[i]? =
          some (some r) := by
    intro i hi
    rcases hclaim i (by omega) with h1 | ⟨j, hj⟩ | ⟨j, e, hj⟩
    · exact h1
    · exact absurd hj (hnobusy j i)
    · exact absurd hj (hnofail j i e)
  have hmap : (batchRun items fn (batchInit ε ρ items.length k) sched).results =
      items.map (fun a => (fn a).toOption) := by
    apply List.ext_getElem?
    intro n
    rcases Nat.lt_or_ge n items.length with hn | hn
    · obtain ⟨a, r, ha, hfa, hr⟩ := hres n hn
      rw [hr, List.getElem?_map, ha]
      simp [hfa, Except.toOption]
    · rw [List.getElem?_eq_none_iff.mpr (by omega),
        List.getElem?_eq_none_iff.mpr (by simpa using hn)]
  refine ⟨hlen, hmap, ?_⟩
  have hnone : (batchRun items fn (batchInit ε ρ items.length k) sched).firstErr = none := by
    cases he : (batchRun items fn (batchInit ε ρ items.length k) sched).firstErr with
    | none => rfl
    | some e =>
      have : (batchRun items fn (batchInit ε ρ items.length k) sched).firstErr.isSome = true := by
        rw [he]; rfl
      obtain ⟨j, i, e', hj⟩ := herr.mp this
      exact absurd hj (hnofail j i e')
  rw [batchOutcome, hnone, hmap]

/-- Witness for `processBatch_order` on a two-document batch with one
worker. -/
theorem processBatch_order_witness :
    ((batchRun [10, 20] (fun n => (.ok (n + 1) : Except String Nat))
        (batchInit String Nat 2 1) [0, 0, 0, 0, 0]).results.length = 2) ∧
    ((batchRun [10, 20] (fun n => (.ok (n + 1) : Except String Nat))
        (batchInit String Nat 2 1) [0, 0, 0, 0, 0]).results = [some 11, some 21]) ∧
    (batchOutcome (batchRun [10, 20] (fun n => (.ok (n + 1) : Except String Nat))
        (batchInit String Nat 2 1) [0, 0, 0, 0, 0]) = .ok [some 11, some 21]) := by
  have h := processBatch_order [10, 20]
    (fun n => (.ok (n + 1) : Except String Nat)) 1 [0, 0, 0, 0, 0]
    (by decide) (by decide)
  exact ⟨h.1, h.2.1, h.2.2⟩

/-- C2 (amended): a single document's failure is not isolated: the
worker that hit it stops claiming documents (stays failed forever), and
once any worker has failed the batch promise rejects with the first
recorded failure instead of returning the other documents' outcomes. -/
theorem processBatch_failure_propagates (items : List α) (fn : α → Except ε ρ)
    (k : Nat) (sched : List Nat) :
    (∀ (st : BatchState ε ρ) (e : ε), st.firstErr = some e →
      batchOutcome st = .error e) ∧
    (∀ (st : BatchState ε ρ) (w j i : Nat) (e : ε),
      st.workers[j]? = some (WorkerState.failed i e) →
      (batchStep items fn st w).workers[j]? = some (WorkerState.failed i e)) ∧
    (∀ (j i : Nat) (e : ε),
      (batchRun items fn (batchInit ε ρ items.length k) sched).workers[j]? =
        some (WorkerState.failed i e) →
      ∃ e₀, batchOutcome (batchRun items fn (batchInit ε ρ items.length k) sched) =
        .error e₀) := by
  refine ⟨?_, ?_, ?_⟩
  · intro st e he
    simp [batchOutcome, he]
  · intro st w j i e hj
    cases hw : st.workers[w]? with
    | none => simpa [batchStep, hw] using hj
    | some ws =>
      cases ws with
      | idle =>
        by_cases hlt : st.nextIndex < items.length
        · simp only [batchStep, hw, if_pos hlt]
          exact getElem?_set_keep hw hj (by simp)
        · simp only [batchStep, hw, if_neg hlt]
          exact getElem?_set_keep hw hj (by simp)
      | busy i' =>
        cases ha : items[i']? with
        | none => simpa [batchStep, hw, ha] using hj
        | some a =>
          cases hfa : fn a with
          | ok r =>
            simp only [batchStep, hw, ha, hfa]
            exact getElem?_set_keep hw hj (by simp)
          | error e' =>
            simp only [batchStep, hw, ha, hfa]
            exact getElem?_set_keep hw hj (by simp)
      | failed i' e' => simpa [batchStep, hw] using hj
      | finished => simpa [batchStep, hw] using hj
  · intro j i e hj
    have hinv := batchRun_inv items fn (batchInit ε ρ items.length k) sched
      (batchInit_inv items fn k)
    obtain ⟨-, -, -, -, -, herr⟩ := hinv
    have hsome := herr.mpr ⟨j, i, e, hj⟩
    cases he : (batchRun items fn (batchInit ε ρ items.length k) sched).firstErr with
    | none => rw [he] at hsome; simp at hsome
    | some e₀ => exact ⟨e₀, by simp [batchOutcome, he]⟩

/-- Witness for `processBatch_failure_propagates` on a concrete failing
batch. -/
theorem processBatch_failure_witness :
    ∃ e₀, batchOutcome (batchRun [10, 20]
      (fun n => if n = 10 then (.error "boom" : Except String Nat) else .ok n)
      (batchInit String Nat 2 1) [0, 0]) = .error e₀ :=
  (processBatch_failure_propagates [10, 20]
    (fun n => if n = 10 then (.error "boom" : Except String Nat) else .ok n)
    1 [0, 0]).2.2 0 0 "boom" (by decide)

/-- C2 counterexample: documents `[10, 20]` with one worker, where the
first document's extraction rejects.  The run settles, the batch call as
a whole fails with that rejection, and the second document's outcome is
never computed (both result cells are still empty) — contradicting
"each BatchOutcome entry is independent" and "the overall batch call
never fails as a whole because one document failed". -/
theorem processBatch_failure_counterexample :
    (batchOutcome (batchRun [10, 20]
      (fun n => if n = 10 then (.error "boom" : Except String Nat) else .ok n)
      (batchInit String Nat 2 1) [0, 0]) = .error "boom") ∧
    (allSettled (batchRun [10, 20]
      (fun n => if n = 10 then (.error "boom" : Except String Nat) else .ok n)
      (batchInit String Nat 2 1) [0, 0]) = true) ∧
    ((batchRun [10, 20]
      (fun n => if n = 10 then (.error "boom" : Except String Nat) else .ok n)
      (batchInit String Nat 2 1) [0, 0]).results = [none, none]) := by
  refine ⟨rfl, by decide, by decide⟩
/-- C5 (code bug): the `Semaphore` admits more concurrent runners than
its capacity.  With the vision pool's capacity 1 and three callers A, B,
C (task ids 0, 1, 2), the schedule [A acquires; B queues; A releases,
resolving B; C's fresh call checks `running` before B's resumed
continuation increments it; B resumes] is a reachable interleaving of
the synchronous segments of `run`, and it leaves two tasks inside `fn`
at once with `running = 2 > 1`, contradicting the pool-capacity
invariant (and the class's own comment that it limits how many calls
run concurrently). -/
theorem semaphore_capacity_violation :
    VISION_CONCURRENCY = 1 ∧
    (semRun VISION_CONCURRENCY (semInit 3) [0, 1, 0, 2, 1] =
      ⟨2, [], [SemTask.done, SemTask.active, SemTask.active]⟩) ∧
    activeCount (semRun VISION_CONCURRENCY (semInit 3) [0, 1, 0, 2, 1]) = 2 ∧
    VISION_CONCURRENCY <
      activeCount (semRun VISION_CONCURRENCY (semInit 3) [0, 1, 0, 2, 1]) := by
  exact ⟨rfl, by decide, by decide, by decide⟩

end Earnings
